import Mathlib

/-!
# go-broadcast-server: the coordinator loop, the read pump and command dispatch

A shallow embedding of `server.go` (`BroadcastServer.run`,
`BroadcastServer.handleWebSocket`) and `main.go` (`main`), with the properties
of the specification stated over it.

Modelling conventions.

* A `*websocket.Conn` is an identity (`Conn`), a `[]byte` payload is a list of bytes.
* `clients map[*websocket.Conn]bool` only ever stores the value `true` and its values are
  never read, so the map is represented by the list of its keys.  A Go map has no duplicate
  keys; `mapSet` keeps that, and `List.Nodup` is the well-formedness of a registry state.
* Go leaves the iteration order of `range` over a map unspecified.  Every `Broadcast`
  event carries a `rank` that decides the order of that one iteration (the keys are
  sorted by rank), so that each theorem holds for every possible order.
* The result of `client.WriteMessage` is decided by the environment.  Every `Broadcast`
  event carries `writeErr`, telling for each connection whether that write returns an error.
* Everything observable (channel sends, writes, closes, log lines) is recorded as an
  `Effect`, in program order.
-/

namespace BroadcastServer

/-- Identity of a `*websocket.Conn` (the key type of the `clients` map). -/
abbrev Conn := Nat

/-- A `[]byte` message payload. -/
abbrev Payload := List (Fin 256)

/-- The constant `websocket.TextMessage`. -/
def TextMessage : Nat := 1

/-- Observable actions of the server goroutines, in program order. -/
inductive Effect where
  /-- The send `s.register <- c`. -/
  | sendRegister (c : Conn)
  /-- The send `s.unregister <- c`. -/
  | sendUnregister (c : Conn)
  /-- The send `s.broadcast <- message`. -/
  | sendBroadcast (message : Payload)
  /-- The call `client.WriteMessage(messageType, message)`, with whether it returned an error. -/
  | write (c : Conn) (messageType : Nat) (message : Payload) (err : Bool)
  /-- The call `c.Close()`. -/
  | close (c : Conn)
  /-- The line `log.Printf("Client connected. Total clients: %d", n)`. -/
  | logConnected (n : Nat)
  /-- The line `log.Printf("Client disconnected. Total clients: %d", n)`. -/
  | logDisconnected (n : Nat)
  /-- The line `log.Printf("error broadcasting message: %v", err)`. -/
  | logBroadcastError (c : Conn)
  /-- The line `log.Printf("error reading message: %v", err)`. -/
  | logReadError (c : Conn)
  deriving DecidableEq, Repr

/-- What `run` receives from its three channels.  A `broadcast` also fixes what the
environment does during that fan-out: which writes fail and in which order the map is
iterated. -/
inductive Event where
  /-- The receive `client := <-s.register`. -/
  | register (c : Conn)
  /-- The receive `client := <-s.unregister`. -/
  | unregister (c : Conn)
  /-- The receive `message := <-s.broadcast`. -/
  | broadcast (message : Payload) (writeErr : Conn → Bool) (rank : Conn → Nat)

/-- The assignment `s.clients[client] = true`: the key is added when absent; when present the entry is
overwritten with the same value. -/
def mapSet (clients : List Conn) (client : Conn) : List Conn :=
  if client ∈ clients then clients else clients ++ [client]

/-- The call `delete(s.clients, client)`: removes the key when present, does nothing otherwise. -/
def mapDelete (clients : List Conn) (client : Conn) : List Conn :=
  clients.filter (fun k => k != client)

/-- The order in which one `for client := range s.clients` visits the keys: the keys
sorted by the rank chosen for this iteration. -/
def rangeOrder (rank : Conn → Nat) (clients : List Conn) : List Conn :=
  clients.insertionSort (fun a b => rank a ≤ rank b)

/-- The body of `for client := range s.clients` in the `broadcast` case, run over the
keys still to be visited.  The body deletes no key other than the one being visited, so
every key of the map at loop entry is visited once. -/
def broadcastLoop (message : Payload) (writeErr : Conn → Bool) :
    List Conn → List Conn → List Conn × List Effect
  | [], clients => (clients, [])
  | client :: rest, clients =>
    if writeErr client then
      let r := broadcastLoop message writeErr rest (mapDelete clients client)
      (r.1, Effect.write client TextMessage message true ::
              Effect.logBroadcastError client :: Effect.close client :: r.2)
    else
      let r := broadcastLoop message writeErr rest clients
      (r.1, Effect.write client TextMessage message false :: r.2)

/-- One iteration of the `for { select { ... } }` of `run`: the `clients` map after the
received event has been handled, and the effects of handling it.  (Only `run` takes
`s.mutex`, so locking never blocks and is not recorded.) -/
def step (clients : List Conn) : Event → List Conn × List Effect
  | Event.register client =>
    let clients1 := mapSet clients client
    (clients1, [Effect.logConnected clients1.length])
  | Event.unregister client =>
    let clients1 := mapDelete clients client
    (clients1, [Effect.logDisconnected clients1.length])
  | Event.broadcast message writeErr rank =>
    broadcastLoop message writeErr (rangeOrder rank clients) clients

/-- The loop of `run` over a finite sequence of received events. -/
def run (clients : List Conn) : List Event → List Conn × List Effect
  | [] => (clients, [])
  | e :: es =>
    let r := step clients e
    let r1 := run r.1 es
    (r1.1, r.2 ++ r1.2)

/-- The `clients` map made by `NewBroadcastServer`: empty. -/
def NewBroadcastServer : List Conn := []

/-- The payloads written to `c` (whatever the outcome), in order. -/
def writesTo (c : Conn) : List Effect → List Payload
  | [] => []
  | Effect.write c1 _ message _ :: rest =>
    if c1 = c then message :: writesTo c rest else writesTo c rest
  | _ :: rest => writesTo c rest

/-- The payloads whose write to `c` returned no error, in order: what `c` receives. -/
def deliveredTo (c : Conn) : List Effect → List Payload
  | [] => []
  | Effect.write c1 _ message err :: rest =>
    if c1 = c ∧ err = false then message :: deliveredTo c rest else deliveredTo c rest
  | _ :: rest => deliveredTo c rest

/-- The payloads of the `Broadcast` events, in the order `run` received them. -/
def broadcastPayloads : List Event → List Payload
  | [] => []
  | Event.broadcast message _ _ :: rest => message :: broadcastPayloads rest
  | _ :: rest => broadcastPayloads rest

/-- Whether handling `e` takes `c` out of the registry when it is there: an
`Unregister(c)`, or a `Broadcast` whose write to `c` fails. -/
def Event.removes (c : Conn) : Event → Bool
  | Event.register _ => false
  | Event.unregister c1 => c1 == c
  | Event.broadcast _ writeErr _ => writeErr c

/-- Whether `e` is `Unregister(c)`. -/
def Event.isUnregisterOf (c : Conn) : Event → Bool
  | Event.unregister c1 => c1 == c
  | _ => false

/-- Whether `e` is `Register(c)`. -/
def Event.isRegisterOf (c : Conn) : Event → Bool
  | Event.register c1 => c1 == c
  | _ => false

/-- Whether `e` is a `Register` or an `Unregister`. -/
def Event.isMembership : Event → Bool
  | Event.broadcast _ _ _ => false
  | _ => true

/-- Whether `e` is a `Broadcast` whose write to `c` returns an error. -/
def Event.failsWriteTo (c : Conn) : Event → Bool
  | Event.broadcast _ writeErr _ => writeErr c
  | _ => false

/-- The membership condition in the words of the specification: a `Register(c)` has been
processed and no `Unregister(c)` has been processed after the last `Register(c)`. -/
def RegisteredNotUnregistered (c : Conn) (es : List Event) : Prop :=
  ∃ pre post, es = pre ++ Event.register c :: post ∧
    ∀ e ∈ post, Event.isRegisterOf c e = false ∧ Event.isUnregisterOf c e = false

/-- The membership condition of the code: a `Register(c)` has been processed and, after
the last `Register(c)`, neither an `Unregister(c)` nor a `Broadcast` whose write to `c`
failed. -/
def RegisteredNotRemoved (c : Conn) (es : List Event) : Prop :=
  ∃ pre post, es = pre ++ Event.register c :: post ∧
    ∀ e ∈ post, Event.isRegisterOf c e = false ∧ Event.isUnregisterOf c e = false ∧
      Event.failsWriteTo c e = false

/-- The registry in the words of the specification, "the multiset of Registers minus the
matching Unregisters": replaying the events on a multiset, a `Register` adds one
occurrence of its connection and an `Unregister` takes one occurrence away when there is
one and is ignored otherwise. -/
def registersMinusUnregisters : List Conn → List Event → List Conn
  | bag, [] => bag
  | bag, Event.register c :: es => registersMinusUnregisters (bag ++ [c]) es
  | bag, Event.unregister c :: es => registersMinusUnregisters (bag.erase c) es
  | bag, Event.broadcast _ _ _ :: es => registersMinusUnregisters bag es

/-- Whether no `Register` in the sequence is for a connection that is registered at that
moment (replaying from `bag`). -/
def registersOnlyAbsent : List Conn → List Event → Bool
  | _, [] => true
  | bag, Event.register c :: es =>
    decide (¬ (c ∈ bag)) && registersOnlyAbsent (bag ++ [c]) es
  | bag, Event.unregister c :: es => registersOnlyAbsent (bag.erase c) es
  | bag, Event.broadcast _ _ _ :: es => registersOnlyAbsent bag es

/-- What one `c.ReadMessage()` returns: a message with its type, or an error, for which
`unexpectedClose` tells whether
`websocket.IsUnexpectedCloseError(err, CloseGoingAway, CloseAbnormalClosure)` holds. -/
inductive ReadResult where
  | message (messageType : Nat) (message : Payload)
  | error (unexpectedClose : Bool)

/-- The `for` loop of `handleWebSocket` over the results of its successive reads: its
effects, and whether it has returned (`false`: every given read succeeded and the loop
is waiting in the next `ReadMessage`). -/
def readLoop (c : Conn) : List ReadResult → List Effect × Bool
  | [] => ([], false)
  | ReadResult.error unexpectedClose :: _ =>
    (if unexpectedClose then [Effect.logReadError c] else [], true)
  | ReadResult.message messageType message :: rest =>
    let r := readLoop c rest
    (if messageType = TextMessage then Effect.sendBroadcast message :: r.1 else r.1, r.2)

/-- The read pump `handleWebSocket(c)`: registers, runs the read loop, and on return runs
the deferred function (unregister, then close).  The second component tells whether the
pump has terminated. -/
def handleWebSocket (c : Conn) (reads : List ReadResult) : List Effect × Bool :=
  let r := readLoop c reads
  (Effect.sendRegister c ::
    (r.1 ++ if r.2 then [Effect.sendUnregister c, Effect.close c] else []), r.2)

/-- The sends on the three channels among the effects: the events the pump emits. -/
def channelSends : List Effect → List Effect
  | [] => []
  | Effect.sendRegister c :: rest => Effect.sendRegister c :: channelSends rest
  | Effect.sendUnregister c :: rest => Effect.sendUnregister c :: channelSends rest
  | Effect.sendBroadcast m :: rest => Effect.sendBroadcast m :: channelSends rest
  | _ :: rest => channelSends rest

/-- The payloads of the text messages among successfully read messages, in read order. -/
def textPayloads : List (Nat × Payload) → List Payload
  | [] => []
  | (messageType, message) :: rest =>
    if messageType = TextMessage then message :: textPayloads rest else textPayloads rest

/-- The read results of a sequence of successful reads. -/
def successfulReads (msgs : List (Nat × Payload)) : List ReadResult :=
  msgs.map (fun p => ReadResult.message p.1 p.2)

/-! ### `main.go`: command dispatch

`flag.FlagSet` is the Go standard library.  Its `Parse` is modelled after the
command-line syntax the package documents (`-name value`, `-name=value`, one or two
leading minus signs, parsing stops before the first non-flag argument or after `--`).
The conversion of an integer flag's text (`strconv.ParseInt`) is a parameter,
`parseInt`. -/

/-- Why `Parse` failed. -/
inductive FlagError where
  | badSyntax (arg : String)
  | notDefined (name : String)
  | help
  | needsArgument (name : String)
  | invalidValue (value : String) (name : String)
  deriving DecidableEq, Repr

/-- The current value of a defined flag: `flag.Int` or `flag.String`. -/
inductive FlagValue where
  | int (v : Int)
  | string (v : String)
  deriving DecidableEq, Repr

/-- A `flag.FlagSet`: the defined flags with their current values. -/
abbrev FlagSet := List (String × FlagValue)

/-- Shape of one command-line argument for `Parse`. -/
inductive ArgKind where
  | nonFlag
  | terminator
  | bad
  | flag (name : List Char) (value : Option (List Char))
  deriving DecidableEq, Repr

/-- Splits the rest of a flag name at its first `=`: the name part and, when there is an
`=`, the value after it. -/
def splitAtEq : List Char → List Char × Option (List Char)
  | [] => ([], none)
  | ch :: rest =>
    if ch = '=' then ([], some rest)
    else
      let r := splitAtEq rest
      (ch :: r.1, r.2)

/-- The argument after its leading minus signs: empty, or starting with `-` or `=`, is
bad syntax; otherwise a flag name, with a value when an `=` follows the first
character. -/
def flagName : List Char → ArgKind
  | [] => ArgKind.bad
  | ch :: rest =>
    if ch = '-' ∨ ch = '=' then ArgKind.bad
    else ArgKind.flag (ch :: (splitAtEq rest).1) (splitAtEq rest).2

/-- How `Parse` reads one argument: shorter than 2 or not starting with `-`, it is not a
flag; `--` ends the flags; otherwise one or two minus signs precede the flag name. -/
def classify : List Char → ArgKind
  | [] => ArgKind.nonFlag
  | [_] => ArgKind.nonFlag
  | c0 :: c1 :: rest =>
    if c0 ≠ '-' then ArgKind.nonFlag
    else if c1 = '-' then (if rest = [] then ArgKind.terminator else flagName rest)
    else flagName (c1 :: rest)

/-- The current value of the flag `name`, when it is defined. -/
def lookupFlag : FlagSet → String → Option FlagValue
  | [], _ => none
  | (n, v) :: rest, name => if n = name then some v else lookupFlag rest name

/-- The method `flag.Value.Set`: stores `value` in the flag `name`; `none` when the text is not valid
for an integer flag. -/
def setFlag (parseInt : String → Option Int) : FlagSet → String → String → Option FlagSet
  | [], _, _ => some []
  | (n, v) :: rest, name, value =>
    if n = name then
      match v with
      | FlagValue.int _ =>
        match parseInt value with
        | some i => some ((n, FlagValue.int i) :: rest)
        | none => none
      | FlagValue.string _ => some ((n, FlagValue.string value) :: rest)
    else
      match setFlag parseInt rest name value with
      | some rest1 => some ((n, v) :: rest1)
      | none => none

/-- The method `FlagSet.Parse` for a flag set without boolean flags (`main` defines none): the flag
set after the flags have been parsed and the arguments left over, or the error. -/
def parse (parseInt : String → Option Int) :
    FlagSet → List String → Except FlagError (FlagSet × List String)
  | f, [] => Except.ok (f, [])
  | f, s :: rest =>
    match classify s.toList with
    | ArgKind.nonFlag => Except.ok (f, s :: rest)
    | ArgKind.terminator => Except.ok (f, rest)
    | ArgKind.bad => Except.error (FlagError.badSyntax s)
    | ArgKind.flag name value =>
      match lookupFlag f (String.mk name) with
      | none =>
        if String.mk name = "help" ∨ String.mk name = "h" then Except.error FlagError.help
        else Except.error (FlagError.notDefined (String.mk name))
      | some _ =>
        match value with
        | some v =>
          match setFlag parseInt f (String.mk name) (String.mk v) with
          | some f1 => parse parseInt f1 rest
          | none =>
            Except.error (FlagError.invalidValue (String.mk v) (String.mk name))
        | none =>
          match rest with
          | [] => Except.error (FlagError.needsArgument (String.mk name))
          | v :: rest1 =>
            match setFlag parseInt f (String.mk name) v with
            | some f1 => parse parseInt f1 rest1
            | none => Except.error (FlagError.invalidValue v (String.mk name))

/-- What `main` does, in program order. -/
inductive Action where
  /-- The call `fmt.Println(line)`. -/
  | println (line : String)
  /-- The call `os.Exit(code)`. -/
  | exit (code : Nat)
  /-- The flag set is `flag.ExitOnError` and `Parse` failed: the package reports the error and exits. -/
  | flagExit (err : FlagError)
  /-- The line `log.Printf("Starting server on port %d...", port)`. -/
  | logStarting (port : Int)
  /-- The line `log.Printf("Connecting to %s:%d...", host, port)`. -/
  | logConnecting (host : String) (port : Int)
  /-- The call `startServer(port)`. -/
  | startServer (port : Int)
  /-- The call `startClient(host, port)`. -/
  | startClient (host : String) (port : Int)
  deriving DecidableEq, Repr

/-- The constant `defaultPort`. -/
def defaultPort : Int := 8080

/-- The value behind the pointer returned by `FlagSet.Int`. -/
def intFlag (f : FlagSet) (name : String) : Int :=
  match lookupFlag f name with
  | some (FlagValue.int v) => v
  | _ => 0

/-- The value behind the pointer returned by `FlagSet.String`. -/
def stringFlag (f : FlagSet) (name : String) : String :=
  match lookupFlag f name with
  | some (FlagValue.string v) => v
  | _ => ""

/-- The flag set `startCmd` of `main`. -/
def startCmd : FlagSet := [("port", FlagValue.int defaultPort)]

/-- The flag set `connectCmd` of `main`. -/
def connectCmd : FlagSet :=
  [("port", FlagValue.int defaultPort), ("host", FlagValue.string "localhost")]

/-- The function `main`, on `os.Args`. -/
def main (parseInt : String → Option Int) : List String → List Action
  | [] => [Action.println "Usage: broadcast-server [start|connect]", Action.exit 1]
  | [_] => [Action.println "Usage: broadcast-server [start|connect]", Action.exit 1]
  | _ :: sub :: rest =>
    if sub = "start" then
      match parse parseInt startCmd rest with
      | Except.error err => [Action.flagExit err]
      | Except.ok (f, _) =>
        [Action.logStarting (intFlag f "port"), Action.startServer (intFlag f "port")]
    else if sub = "connect" then
      match parse parseInt connectCmd rest with
      | Except.error err => [Action.flagExit err]
      | Except.ok (f, _) =>
        [Action.logConnecting (stringFlag f "host") (intFlag f "port"),
          Action.startClient (stringFlag f "host") (intFlag f "port")]
    else [Action.println "Expected 'start' or 'connect' subcommands", Action.exit 1]

/-- A decimal digit's value. -/
def digitValue (ch : Char) : Option Nat :=
  if '0' ≤ ch ∧ ch ≤ '9' then some (ch.toNat - '0'.toNat) else none

/-- Reads a non-empty string of decimal digits: one conversion `parseInt` can be. -/
def decimal (acc : Nat) : List Char → Option Int
  | [] => some (Int.ofNat acc)
  | ch :: rest =>
    match digitValue ch with
    | some d => decimal (10 * acc + d) rest
    | none => none

/-- Whether the actions start a server or a client. -/
def Action.starts : Action → Bool
  | Action.startServer _ => true
  | Action.startClient _ _ => true
  | _ => false

/-! ## Lemmas on the map operations and on one fan-out -/

theorem mem_mapSet (clients : List Conn) (client c : Conn) :
    c ∈ mapSet clients client ↔ c = client ∨ c ∈ clients := by
  unfold mapSet
  by_cases h : client ∈ clients
  · simp only [h, if_true]
    constructor
    · exact fun hc => Or.inr hc
    · rintro (rfl | hc)
      · exact h
      · exact hc
  · simp [h, or_comm]

theorem mem_mapDelete (clients : List Conn) (client c : Conn) :
    c ∈ mapDelete clients client ↔ c ∈ clients ∧ c ≠ client := by
  simp [mapDelete]

theorem nodup_mapSet (clients : List Conn) (client : Conn) (h : clients.Nodup) :
    (mapSet clients client).Nodup := by
  unfold mapSet
  by_cases hc : client ∈ clients
  · simpa [hc] using h
  · simp only [hc, if_false]
    exact List.Nodup.append h (List.nodup_singleton client) (by simpa using hc)

theorem nodup_mapDelete (clients : List Conn) (client : Conn) (h : clients.Nodup) :
    (mapDelete clients client).Nodup :=
  List.Nodup.filter _ h

theorem rangeOrder_perm (rank : Conn → Nat) (clients : List Conn) :
    (rangeOrder rank clients).Perm clients :=
  List.perm_insertionSort _ clients

theorem mem_rangeOrder (rank : Conn → Nat) (clients : List Conn) (c : Conn) :
    c ∈ rangeOrder rank clients ↔ c ∈ clients :=
  (rangeOrder_perm rank clients).mem_iff

theorem count_rangeOrder (rank : Conn → Nat) (clients : List Conn) (c : Conn) :
    (rangeOrder rank clients).count c = clients.count c :=
  (rangeOrder_perm rank clients).count_eq c

/-- Every order of the keys of a map is the order of some iteration: `rangeOrder` leaves
the iteration order as free as Go does. -/
theorem rangeOrder_any_order (clients order : List Conn) (hperm : order.Perm clients)
    (hnd : clients.Nodup) : ∃ rank : Conn → Nat, rangeOrder rank clients = order := by
  have hndo : order.Nodup := hperm.nodup_iff.2 hnd
  have hinj : ∀ a b : Conn,
      (if a ∈ order then (order.indexOf a : Nat) else (order.length + 1 + a : Nat)) =
        (if b ∈ order then (order.indexOf b : Nat) else (order.length + 1 + b : Nat)) → a = b := by
    intro a b h
    by_cases ha : a ∈ order <;> by_cases hb : b ∈ order <;>
      simp only [ha, hb, if_true, if_false] at h
    · exact (List.indexOf_inj ha hb).1 h
    · have h1 := List.indexOf_lt_length.2 ha
      rw [h] at h1
      exact absurd h1 (by omega)
    · have h1 := List.indexOf_lt_length.2 hb
      rw [← h] at h1
      exact absurd h1 (by omega)
    · exact Nat.add_left_cancel h
  refine ⟨fun c => if c ∈ order then (order.indexOf c : Nat) else order.length + 1 + c, ?_⟩
  haveI : IsAntisymm Conn (fun a b =>
      (if a ∈ order then (order.indexOf a : Nat) else (order.length + 1 + a : Nat)) ≤
        (if b ∈ order then (order.indexOf b : Nat) else (order.length + 1 + b : Nat))) :=
    ⟨fun a b h1 h2 => hinj a b (Nat.le_antisymm h1 h2)⟩
  haveI : IsTotal Conn (fun a b =>
      (if a ∈ order then (order.indexOf a : Nat) else (order.length + 1 + a : Nat)) ≤
        (if b ∈ order then (order.indexOf b : Nat) else (order.length + 1 + b : Nat))) :=
    ⟨fun a b => Nat.le_total _ _⟩
  haveI : IsTrans Conn (fun a b =>
      (if a ∈ order then (order.indexOf a : Nat) else (order.length + 1 + a : Nat)) ≤
        (if b ∈ order then (order.indexOf b : Nat) else (order.length + 1 + b : Nat))) :=
    ⟨fun a b c h1 h2 => Nat.le_trans h1 h2⟩
  refine List.eq_of_perm_of_sorted ((rangeOrder_perm _ clients).trans hperm.symm)
    (List.sorted_insertionSort _ clients) ?_
  rw [List.Sorted, List.pairwise_iff_get]
  intro i j hij
  have hi : order.get i ∈ order := List.get_mem order i.1 i.2
  have hj : order.get j ∈ order := List.get_mem order j.1 j.2
  simp only [hi, hj, if_true]
  have e1 : order.indexOf (order.get i) = i.1 := List.get_indexOf hndo i
  have e2 : order.indexOf (order.get j) = j.1 := List.get_indexOf hndo j
  rw [e1, e2]
  exact Nat.le_of_lt hij

theorem count_of_nodup (l : List Conn) (c : Conn) (h : l.Nodup) :
    l.count c = if c ∈ l then 1 else 0 := by
  by_cases hc : c ∈ l
  · simp [hc, List.count_eq_one_of_mem h hc]
  · simp [hc, List.count_eq_zero_of_not_mem hc]

theorem broadcastLoop_cons_err (message : Payload) (writeErr : Conn → Bool) (k : Conn)
    (rest clients : List Conn) (h : writeErr k = true) :
    broadcastLoop message writeErr (k :: rest) clients =
      ((broadcastLoop message writeErr rest (mapDelete clients k)).1,
        Effect.write k TextMessage message true :: Effect.logBroadcastError k ::
          Effect.close k :: (broadcastLoop message writeErr rest (mapDelete clients k)).2) := by
  simp [broadcastLoop, h]

theorem broadcastLoop_cons_ok (message : Payload) (writeErr : Conn → Bool) (k : Conn)
    (rest clients : List Conn) (h : writeErr k = false) :
    broadcastLoop message writeErr (k :: rest) clients =
      ((broadcastLoop message writeErr rest clients).1,
        Effect.write k TextMessage message false ::
          (broadcastLoop message writeErr rest clients).2) := by
  simp [broadcastLoop, h]

theorem mem_broadcastLoop (message : Payload) (writeErr : Conn → Bool) (c : Conn) :
    ∀ (order clients : List Conn),
      c ∈ (broadcastLoop message writeErr order clients).1 ↔
        c ∈ clients ∧ ¬ (c ∈ order ∧ writeErr c = true) := by
  intro order
  induction order with
  | nil => intro clients; simp [broadcastLoop]
  | cons k rest ih =>
    intro clients
    cases hk : writeErr k
    · rw [broadcastLoop_cons_ok _ _ _ _ _ hk]
      simp only [ih, List.mem_cons]
      constructor
      · rintro ⟨h1, h2⟩
        refine ⟨h1, ?_⟩
        rintro ⟨h4 | h4, h5⟩
        · rw [h4, hk] at h5; exact Bool.noConfusion h5
        · exact h2 ⟨h4, h5⟩
      · rintro ⟨h1, h2⟩
        exact ⟨h1, fun h => h2 ⟨Or.inr h.1, h.2⟩⟩
    · rw [broadcastLoop_cons_err _ _ _ _ _ hk]
      simp only [ih, mem_mapDelete, List.mem_cons]
      constructor
      · rintro ⟨⟨h1, h2⟩, h3⟩
        refine ⟨h1, ?_⟩
        rintro ⟨h4 | h4, h5⟩
        · exact h2 h4
        · exact h3 ⟨h4, h5⟩
      · rintro ⟨h1, h2⟩
        refine ⟨⟨h1, ?_⟩, fun h => h2 ⟨Or.inr h.1, h.2⟩⟩
        intro h
        exact h2 ⟨Or.inl h, h ▸ hk⟩

theorem nodup_broadcastLoop (message : Payload) (writeErr : Conn → Bool) :
    ∀ (order clients : List Conn), clients.Nodup →
      (broadcastLoop message writeErr order clients).1.Nodup := by
  intro order
  induction order with
  | nil => intro clients h; simpa [broadcastLoop] using h
  | cons k rest ih =>
    intro clients h
    cases hk : writeErr k
    · rw [broadcastLoop_cons_ok _ _ _ _ _ hk]
      exact ih _ h
    · rw [broadcastLoop_cons_err _ _ _ _ _ hk]
      exact ih _ (nodup_mapDelete clients k h)

theorem writesTo_append (c : Conn) (xs ys : List Effect) :
    writesTo c (xs ++ ys) = writesTo c xs ++ writesTo c ys := by
  induction xs with
  | nil => rfl
  | cons x xs ih =>
    cases x with
    | write c1 mt m err =>
      by_cases h : c1 = c <;> simp [writesTo, h, ih]
    | _ => simp [writesTo, ih]

theorem deliveredTo_append (c : Conn) (xs ys : List Effect) :
    deliveredTo c (xs ++ ys) = deliveredTo c xs ++ deliveredTo c ys := by
  induction xs with
  | nil => rfl
  | cons x xs ih =>
    cases x with
    | write c1 mt m err =>
      by_cases h : c1 = c <;> cases err <;> simp [deliveredTo, h, ih]
    | _ => simp [deliveredTo, ih]

theorem writesTo_broadcastLoop (message : Payload) (writeErr : Conn → Bool) (c : Conn) :
    ∀ (order clients : List Conn),
      writesTo c (broadcastLoop message writeErr order clients).2 =
        List.replicate (order.count c) message := by
  intro order
  induction order with
  | nil => intro clients; simp [broadcastLoop, writesTo]
  | cons k rest ih =>
    intro clients
    cases hk : writeErr k
    · rw [broadcastLoop_cons_ok _ _ _ _ _ hk]
      by_cases hc : k = c <;>
        simp [hc, writesTo, ih, List.count_cons, List.replicate_succ]
    · rw [broadcastLoop_cons_err _ _ _ _ _ hk]
      by_cases hc : k = c <;>
        simp [hc, writesTo, ih, List.count_cons, List.replicate_succ]

theorem deliveredTo_broadcastLoop (message : Payload) (writeErr : Conn → Bool) (c : Conn) :
    ∀ (order clients : List Conn),
      deliveredTo c (broadcastLoop message writeErr order clients).2 =
        if writeErr c = true then [] else List.replicate (order.count c) message := by
  intro order
  induction order with
  | nil => intro clients; simp [broadcastLoop, deliveredTo]
  | cons k rest ih =>
    intro clients
    cases hk : writeErr k
    · rw [broadcastLoop_cons_ok _ _ _ _ _ hk]
      by_cases hc : k = c
      · subst hc
        simp [deliveredTo, ih, hk, List.count_cons, List.replicate_succ]
      · simp [deliveredTo, ih, hc, List.count_cons]
    · rw [broadcastLoop_cons_err _ _ _ _ _ hk]
      by_cases hc : k = c
      · subst hc
        simp [deliveredTo, ih, hk]
      · simp [deliveredTo, ih, hc, List.count_cons]

theorem nodup_step (clients : List Conn) (e : Event) (h : clients.Nodup) :
    (step clients e).1.Nodup := by
  cases e with
  | register c => exact nodup_mapSet clients c h
  | unregister c => exact nodup_mapDelete clients c h
  | broadcast m we rk => exact nodup_broadcastLoop m we _ clients h

theorem nodup_run (es : List Event) :
    ∀ clients : List Conn, clients.Nodup → (run clients es).1.Nodup := by
  induction es with
  | nil => intro clients h; exact h
  | cons e es ih => intro clients h; exact ih _ (nodup_step clients e h)

theorem run_append (es1 es2 : List Event) :
    ∀ clients : List Conn,
      run clients (es1 ++ es2) =
        ((run (run clients es1).1 es2).1, (run clients es1).2 ++ (run (run clients es1).1 es2).2) := by
  induction es1 with
  | nil => intro clients; simp [run]
  | cons e es ih => intro clients; simp [run, ih, List.append_assoc]

/-- Membership after one step: the connection was just registered, or it was there and
the event did not remove it. -/
theorem mem_step (clients : List Conn) (e : Event) (c : Conn) :
    c ∈ (step clients e).1 ↔
      e.isRegisterOf c = true ∨ (c ∈ clients ∧ e.removes c = false) := by
  cases e with
  | register k =>
    have h1 : (step clients (Event.register k)).1 = mapSet clients k := rfl
    rw [h1, mem_mapSet]
    simp only [Event.isRegisterOf, Event.removes, beq_iff_eq, and_true]
    constructor
    · rintro (h | h)
      · exact Or.inl h.symm
      · exact Or.inr h
    · rintro (h | h)
      · exact Or.inl h.symm
      · exact Or.inr h
  | unregister k =>
    have h1 : (step clients (Event.unregister k)).1 = mapDelete clients k := rfl
    rw [h1, mem_mapDelete]
    simp only [Event.isRegisterOf, Event.removes, beq_eq_false_iff_ne, ne_eq]
    constructor
    · rintro ⟨h1, h2⟩
      exact Or.inr ⟨h1, fun h => h2 h.symm⟩
    · rintro (h | ⟨h1, h2⟩)
      · exact Bool.noConfusion h
      · exact ⟨h1, fun h => h2 h.symm⟩
  | broadcast m we rk =>
    have h1 : (step clients (Event.broadcast m we rk)).1 =
        (broadcastLoop m we (rangeOrder rk clients) clients).1 := rfl
    rw [h1, mem_broadcastLoop, mem_rangeOrder]
    simp only [Event.isRegisterOf, Event.removes]
    constructor
    · rintro ⟨h1, h2⟩
      refine Or.inr ⟨h1, ?_⟩
      cases hw : we c
      · rfl
      · exact absurd ⟨h1, hw⟩ h2
    · rintro (h | ⟨h1, h2⟩)
      · exact Bool.noConfusion h
      · refine ⟨h1, fun h => ?_⟩
        rw [h2] at h
        exact Bool.noConfusion h.2

theorem isRegisterOf_iff (e : Event) (c : Conn) :
    e.isRegisterOf c = true ↔ e = Event.register c := by
  cases e with
  | register k =>
    simp only [Event.isRegisterOf, beq_iff_eq]
    constructor
    · rintro rfl; rfl
    · intro h; injection h
  | unregister k =>
    simp only [Event.isRegisterOf]
    constructor
    · intro h; exact Bool.noConfusion h
    · intro h; exact Event.noConfusion h
  | broadcast m we rk =>
    simp only [Event.isRegisterOf]
    constructor
    · intro h; exact Bool.noConfusion h
    · intro h; exact Event.noConfusion h

theorem run_cons_fst (clients : List Conn) (e : Event) (es : List Event) :
    (run clients (e :: es)).1 = (run (step clients e).1 es).1 := rfl

theorem run_cons_snd (clients : List Conn) (e : Event) (es : List Event) :
    (run clients (e :: es)).2 = (step clients e).2 ++ (run (step clients e).1 es).2 := rfl

/-- Membership after a run from any registry: the connection was there and nothing
removed it, or some `Register` of it is followed by nothing that removes it. -/
theorem mem_run (es : List Event) (c : Conn) :
    ∀ clients : List Conn,
      c ∈ (run clients es).1 ↔
        (c ∈ clients ∧ ∀ e ∈ es, Event.removes c e = false) ∨
          ∃ pre post, es = pre ++ Event.register c :: post ∧
            ∀ e ∈ post, Event.removes c e = false := by
  induction es with
  | nil =>
    intro clients
    constructor
    · intro h
      exact Or.inl ⟨h, fun e he => absurd he (List.not_mem_nil e)⟩
    · rintro (⟨h, _⟩ | ⟨pre, post, h, _⟩)
      · exact h
      · cases pre <;> simp at h
  | cons e es ih =>
    intro clients
    rw [run_cons_fst, ih, mem_step]
    constructor
    · rintro (⟨h1 | ⟨h1, h2⟩, h3⟩ | ⟨pre, post, h1, h2⟩)
      · refine Or.inr ⟨[], es, ?_, h3⟩
        rw [(isRegisterOf_iff e c).1 h1]
        rfl
      · refine Or.inl ⟨h1, ?_⟩
        intro e1 he1
        rcases List.mem_cons.1 he1 with h | h
        · rw [h]; exact h2
        · exact h3 e1 h
      · exact Or.inr ⟨e :: pre, post, by rw [h1]; rfl, h2⟩
    · rintro (⟨h1, h2⟩ | ⟨pre, post, h1, h2⟩)
      · exact Or.inl ⟨Or.inr ⟨h1, h2 e (List.mem_cons_self e es)⟩,
          fun e1 he1 => h2 e1 (List.mem_cons_of_mem e he1)⟩
      · cases pre with
        | nil =>
          simp only [List.nil_append, List.cons.injEq] at h1
          refine Or.inl ⟨Or.inl ((isRegisterOf_iff e c).2 h1.1), ?_⟩
          rw [h1.2]
          exact h2
        | cons p pre =>
          simp only [List.cons_append, List.cons.injEq] at h1
          exact Or.inr ⟨pre, post, h1.2, h2⟩

/-- Membership after a run from the empty registry. -/
theorem mem_run_new (es : List Event) (c : Conn) :
    c ∈ (run NewBroadcastServer es).1 ↔
      ∃ pre post, es = pre ++ Event.register c :: post ∧
        ∀ e ∈ post, Event.removes c e = false := by
  rw [mem_run]
  constructor
  · rintro (⟨h, _⟩ | h)
    · exact absurd h (List.not_mem_nil c)
    · exact h
  · exact fun h => Or.inr h

theorem removes_eq (e : Event) (c : Conn) :
    Event.removes c e = (Event.isUnregisterOf c e || Event.failsWriteTo c e) := by
  cases e <;> simp [Event.removes, Event.isUnregisterOf, Event.failsWriteTo]

/-- A split at some `Register(c)` can be moved to the last `Register(c)`. -/
theorem split_at_last_register (c : Conn) (P : Event → Prop) :
    ∀ (n : Nat) (post pre : List Event), post.length ≤ n → (∀ e ∈ post, P e) →
      ∃ pre1 post1, pre ++ Event.register c :: post = pre1 ++ Event.register c :: post1 ∧
        ∀ e ∈ post1, Event.isRegisterOf c e = false ∧ P e := by
  intro n
  induction n with
  | zero =>
    intro post pre hlen hP
    have hnil : post = [] := List.length_eq_zero.1 (Nat.le_zero.1 hlen)
    subst hnil
    exact ⟨pre, [], rfl, fun e he => absurd he (List.not_mem_nil e)⟩
  | succ n ih =>
    intro post pre hlen hP
    by_cases hreg : ∃ e ∈ post, Event.isRegisterOf c e = true
    · obtain ⟨e, he, hec⟩ := hreg
      obtain ⟨a, b, hab⟩ := List.append_of_mem he
      have he2 : e = Event.register c := (isRegisterOf_iff e c).1 hec
      subst he2
      have hb : b.length ≤ n := by
        have h1 : post.length = a.length + (b.length + 1) := by
          rw [hab, List.length_append, List.length_cons]
        omega
      have hPb : ∀ e ∈ b, P e := by
        intro e1 he1
        apply hP
        rw [hab]
        exact List.mem_append_right a (List.mem_cons_of_mem _ he1)
      obtain ⟨pre1, post1, h1, h2⟩ := ih b (pre ++ Event.register c :: a) hb hPb
      refine ⟨pre1, post1, ?_, h2⟩
      rw [← h1, hab]
      simp [List.append_assoc]
    · refine ⟨pre, post, rfl, fun e he => ⟨?_, hP e he⟩⟩
      cases h : Event.isRegisterOf c e
      · rfl
      · exact absurd ⟨e, he, h⟩ hreg

/-- Membership after a run from the empty registry, with the split at the last
`Register(c)`. -/
theorem mem_run_new_iff (es : List Event) (c : Conn) :
    c ∈ (run NewBroadcastServer es).1 ↔ RegisteredNotRemoved c es := by
  rw [mem_run_new]
  constructor
  · rintro ⟨pre, post, h1, h2⟩
    obtain ⟨pre1, post1, h3, h4⟩ :=
      split_at_last_register c (fun e => Event.removes c e = false) post.length post pre
        (Nat.le_refl _) h2
    refine ⟨pre1, post1, h1.trans h3, ?_⟩
    intro e he
    have h5 := (h4 e he).2
    rw [removes_eq, Bool.or_eq_false_iff] at h5
    exact ⟨(h4 e he).1, h5.1, h5.2⟩
  · rintro ⟨pre, post, h1, h2⟩
    refine ⟨pre, post, h1, ?_⟩
    intro e he
    rw [removes_eq, Bool.or_eq_false_iff]
    exact ⟨(h2 e he).2.1, (h2 e he).2.2⟩

theorem writesTo_step_broadcast (clients : List Conn) (message : Payload)
    (writeErr : Conn → Bool) (rank : Conn → Nat) (c : Conn) :
    writesTo c (step clients (Event.broadcast message writeErr rank)).2 =
      List.replicate (clients.count c) message := by
  show writesTo c (broadcastLoop message writeErr (rangeOrder rank clients) clients).2 = _
  rw [writesTo_broadcastLoop, count_rangeOrder]

theorem deliveredTo_step_broadcast (clients : List Conn) (message : Payload)
    (writeErr : Conn → Bool) (rank : Conn → Nat) (c : Conn) :
    deliveredTo c (step clients (Event.broadcast message writeErr rank)).2 =
      if writeErr c = true then [] else List.replicate (clients.count c) message := by
  show deliveredTo c (broadcastLoop message writeErr (rangeOrder rank clients) clients).2 = _
  rw [deliveredTo_broadcastLoop, count_rangeOrder]

/-- One fan-out writes to `c` exactly when `c` is a key of the map. -/
theorem writesTo_step_broadcast_ne_nil (clients : List Conn) (message : Payload)
    (writeErr : Conn → Bool) (rank : Conn → Nat) (c : Conn) :
    writesTo c (step clients (Event.broadcast message writeErr rank)).2 ≠ [] ↔
      c ∈ clients := by
  rw [writesTo_step_broadcast]
  by_cases hc : c ∈ clients
  · have hpos : 0 < clients.count c := List.count_pos_iff.2 hc
    obtain ⟨k, hk⟩ := Nat.exists_eq_succ_of_ne_zero (Nat.pos_iff_ne_zero.1 hpos)
    simp [hc, hk, List.replicate_succ]
  · simp [hc, List.count_eq_zero_of_not_mem hc]

/-- The trace of a run that contains an event is the trace before it, the effects of
handling it, and the trace after it. -/
theorem run_split (clients : List Conn) (pre post : List Event) (e : Event) :
    (run clients (pre ++ e :: post)).2 =
      (run clients pre).2 ++ ((step (run clients pre).1 e).2 ++
        (run (step (run clients pre).1 e).1 post).2) := by
  rw [run_append]
  rfl

theorem close_mem_broadcastLoop (message : Payload) (writeErr : Conn → Bool) (c : Conn) :
    ∀ (order clients : List Conn),
      Effect.close c ∈ (broadcastLoop message writeErr order clients).2 ↔
        c ∈ order ∧ writeErr c = true := by
  intro order
  induction order with
  | nil => intro clients; simp [broadcastLoop]
  | cons k rest ih =>
    intro clients
    cases hk : writeErr k
    · rw [broadcastLoop_cons_ok _ _ _ _ _ hk]
      simp only [List.mem_cons, ih, false_or, reduceCtorEq]
      constructor
      · rintro ⟨h1, h2⟩
        exact ⟨Or.inr h1, h2⟩
      · rintro ⟨h1 | h1, h2⟩
        · rw [h1, hk] at h2; exact Bool.noConfusion h2
        · exact ⟨h1, h2⟩
    · rw [broadcastLoop_cons_err _ _ _ _ _ hk]
      simp only [List.mem_cons, ih, false_or, reduceCtorEq, Effect.close.injEq]
      constructor
      · rintro (h | ⟨h1, h2⟩)
        · exact ⟨Or.inl h, h ▸ hk⟩
        · exact ⟨Or.inr h1, h2⟩
      · rintro ⟨h1 | h1, h2⟩
        · exact Or.inl h1
        · exact Or.inr ⟨h1, h2⟩

/-- A connection that is absent stays absent as long as it is not registered. -/
theorem not_mem_run_of_not_mem (clients : List Conn) (mid : List Event) (c : Conn)
    (hc : ¬ (c ∈ clients)) (hmid : ∀ e ∈ mid, Event.isRegisterOf c e = false) :
    ¬ (c ∈ (run clients mid).1) := by
  rw [mem_run]
  rintro (⟨h, _⟩ | ⟨p, q, h1, _⟩)
  · exact hc h
  · have h3 : Event.register c ∈ mid := by
      rw [h1]
      exact List.mem_append_right p (List.mem_cons_self _ _)
    have h5 := hmid _ h3
    simp [Event.isRegisterOf] at h5

/-! ## C1: registry membership -/

/-- C1, as stated, fails: after `Register(1)` and a `Broadcast` whose write to `1` fails,
connection `1` has been registered and never unregistered, yet it is not in the `clients`
map. -/
theorem c1_counterexample :
    RegisteredNotUnregistered 1
        [Event.register 1, Event.broadcast [] (fun _ => true) (fun _ => 0)] ∧
      ¬ (1 ∈ (run NewBroadcastServer
        [Event.register 1, Event.broadcast [] (fun _ => true) (fun _ => 0)]).1) := by
  constructor
  · refine ⟨[], [Event.broadcast [] (fun _ => true) (fun _ => 0)], rfl, ?_⟩
    intro e he
    rw [List.mem_singleton] at he
    subst he
    exact ⟨rfl, rfl⟩
  · decide

/-- C1, amended: after any finite sequence of events processed by `run` from the empty
`clients` map, `c` is in the map if and only if a `Register(c)` has been processed and,
after the last `Register(c)`, neither an `Unregister(c)` nor a `Broadcast` whose write to
`c` failed has been processed; and registering a connection that is already present
leaves the map unchanged. -/
theorem c1_membership (es : List Event) (c : Conn) :
    (c ∈ (run NewBroadcastServer es).1 ↔ RegisteredNotRemoved c es) ∧
      (∀ clients : List Conn, c ∈ clients →
        (step clients (Event.register c)).1 = clients) := by
  refine ⟨mem_run_new_iff es c, ?_⟩
  intro clients hc
  show mapSet clients c = clients
  simp [mapSet, hc]

/-- C1, amended, at a concrete run: `2` is registered in `[1, 2]` and registering it
again leaves the map as it is. -/
theorem c1_membership_witness :
    (2 ∈ (run NewBroadcastServer [Event.register 1, Event.register 2]).1 ↔
        RegisteredNotRemoved 2 [Event.register 1, Event.register 2]) ∧
      (step [1, 2] (Event.register 2)).1 = [1, 2] :=
  ⟨(c1_membership [Event.register 1, Event.register 2] 2).1,
    (c1_membership [Event.register 1, Event.register 2] 2).2 [1, 2] (by decide)⟩

/-! ## C6: the membership a broadcast sees -/

/-- C6, as stated, fails: in `Register(1); Broadcast (write to 1 fails); Broadcast`, the
`Register` and `Unregister` events before the second `Broadcast` leave `1` in the
registry, yet the second `Broadcast` writes to nobody. -/
theorem c6_counterexample :
    1 ∈ (run NewBroadcastServer
        (List.filter Event.isMembership
          [Event.register 1, Event.broadcast [] (fun _ => true) (fun _ => 0)])).1 ∧
      writesTo 1 (step (run NewBroadcastServer
        [Event.register 1, Event.broadcast [] (fun _ => true) (fun _ => 0)]).1
          (Event.broadcast [] (fun _ => false) (fun _ => 0))).2 = [] := by
  constructor <;> decide

/-- C6, amended: for every `Broadcast` in a sequence processed by `run` from the empty
registry, its effects are the part of the trace between those of the events before it and
those of the events after it, and the connections it attempts to write to are exactly the
registry membership resulting from all events ordered before it: the connections with a
`Register` after whose last occurrence there is neither an `Unregister` of them nor a
`Broadcast` whose write to them failed. -/
theorem c6_broadcast_sees_membership (pre post : List Event) (message : Payload)
    (writeErr : Conn → Bool) (rank : Conn → Nat) (c : Conn) :
    (run NewBroadcastServer (pre ++ Event.broadcast message writeErr rank :: post)).2 =
        (run NewBroadcastServer pre).2 ++
          ((step (run NewBroadcastServer pre).1 (Event.broadcast message writeErr rank)).2 ++
            (run (step (run NewBroadcastServer pre).1
              (Event.broadcast message writeErr rank)).1 post).2) ∧
      (writesTo c (step (run NewBroadcastServer pre).1
          (Event.broadcast message writeErr rank)).2 ≠ [] ↔
        RegisteredNotRemoved c pre) := by
  refine ⟨run_split _ _ _ _, ?_⟩
  rw [writesTo_step_broadcast_ne_nil, mem_run_new_iff]

/-! ## C8: no write after `Unregister` -/

/-- After `Unregister(c)` and further events none of which is `Register(c)`, `c` is not
in the registry, whatever the registry was before. -/
theorem not_mem_after_unregister (clients : List Conn) (pre mid : List Event) (c : Conn)
    (hmid : ∀ e ∈ mid, Event.isRegisterOf c e = false) :
    ¬ (c ∈ (run clients (pre ++ Event.unregister c :: mid)).1) := by
  rw [run_append]
  show ¬ (c ∈ (run (run clients pre).1 (Event.unregister c :: mid)).1)
  rw [mem_run]
  rintro (⟨_, h⟩ | ⟨p, q, h1, _⟩)
  · have h2 := h (Event.unregister c) (List.mem_cons_self _ _)
    simp [Event.removes] at h2
  · have h3 : Event.register c ∈ Event.unregister c :: mid := by
      rw [h1]
      exact List.mem_append_right p (List.mem_cons_self _ _)
    rcases List.mem_cons.1 h3 with h4 | h4
    · exact Event.noConfusion h4
    · have h5 := hmid _ h4
      simp [Event.isRegisterOf] at h5

/-- C8, as stated, fails: in `Register(1); Unregister(1); Register(1); Broadcast` the
`Broadcast` comes after `Unregister(1)` has been processed and writes to `1`. -/
theorem c8_counterexample :
    writesTo 1 (step (run NewBroadcastServer
        ([Event.register 1] ++ Event.unregister 1 :: [Event.register 1])).1
          (Event.broadcast [7] (fun _ => false) (fun _ => 0))).2 = [[7]] := by
  decide

/-- C8, amended: once `Unregister(c)` has been processed, no later `Broadcast` issues a
write to `c` unless a `Register(c)` has been processed in between. -/
theorem c8_no_write_after_unregister (clients : List Conn) (pre mid : List Event)
    (message : Payload) (writeErr : Conn → Bool) (rank : Conn → Nat) (c : Conn)
    (hmid : ∀ e ∈ mid, Event.isRegisterOf c e = false) :
    writesTo c (step (run clients (pre ++ Event.unregister c :: mid)).1
      (Event.broadcast message writeErr rank)).2 = [] := by
  have h := not_mem_after_unregister clients pre mid c hmid
  rw [writesTo_step_broadcast, List.count_eq_zero_of_not_mem h]
  rfl

/-- C8, amended, at a concrete run: `1` and `2` registered, `1` unregistered, `3`
registered, then a broadcast: nothing is written to `1`. -/
theorem c8_no_write_after_unregister_witness :
    (∀ e ∈ [Event.register 3], Event.isRegisterOf 1 e = false) ∧
      writesTo 1 (step (run NewBroadcastServer
        ([Event.register 1, Event.register 2] ++ Event.unregister 1 :: [Event.register 3])).1
          (Event.broadcast [7] (fun _ => false) (fun _ => 0))).2 = [] :=
  ⟨by intro e he; rw [List.mem_singleton] at he; subst he; rfl,
    c8_no_write_after_unregister NewBroadcastServer [Event.register 1, Event.register 2]
      [Event.register 3] [7] (fun _ => false) (fun _ => 0) 1
      (by intro e he; rw [List.mem_singleton] at he; subst he; rfl)⟩

/-! ## C3: a failed write evicts the connection and nothing else -/

/-- C3, as stated, fails: in `Register(1); Broadcast "x" (write to 1 fails); Register(1)`
connection `1` is back in the registry for the subsequent broadcast, which writes to it. -/
theorem c3_counterexample :
    1 ∈ (run NewBroadcastServer
        [Event.register 1, Event.broadcast [120] (fun _ => true) (fun _ => 0),
          Event.register 1]).1 ∧
      writesTo 1 (step (run NewBroadcastServer
        [Event.register 1, Event.broadcast [120] (fun _ => true) (fun _ => 0),
          Event.register 1]).1 (Event.broadcast [121] (fun _ => false) (fun _ => 0))).2 =
        [[121]] := by
  constructor <;> decide

/-- C3, amended: when the write to a member `ci` fails during `Broadcast(M)`, `ci` is
closed and removed from the registry; every member is written `M` once in that same
broadcast, and a member whose own write succeeds stays registered and receives `M`; the
step completes and `run` goes on with the following events; and `ci` stays out of the
registry, and is written by no later broadcast, until a `Register(ci)` is processed again.
Scenario: register `c1`; the write to `c1` fails during broadcast `"x"`; the registry has
size 0 and the following broadcast `"y"` writes to nobody and changes nothing. -/
theorem c3_write_failure (clients : List Conn) (message : Payload)
    (writeErr : Conn → Bool) (rank : Conn → Nat) (ci : Conn)
    (hnd : clients.Nodup) (hci : ci ∈ clients) (hfail : writeErr ci = true) :
    (¬ (ci ∈ (step clients (Event.broadcast message writeErr rank)).1) ∧
        Effect.close ci ∈ (step clients (Event.broadcast message writeErr rank)).2) ∧
      (∀ cj ∈ clients,
        writesTo cj (step clients (Event.broadcast message writeErr rank)).2 = [message]) ∧
      (∀ cj ∈ clients, writeErr cj = false →
        cj ∈ (step clients (Event.broadcast message writeErr rank)).1 ∧
          deliveredTo cj (step clients (Event.broadcast message writeErr rank)).2 =
            [message]) ∧
      (∀ rest : List Event,
        run clients (Event.broadcast message writeErr rank :: rest) =
          ((run (step clients (Event.broadcast message writeErr rank)).1 rest).1,
            (step clients (Event.broadcast message writeErr rank)).2 ++
              (run (step clients (Event.broadcast message writeErr rank)).1 rest).2)) ∧
      (∀ (mid : List Event) (m2 : Payload) (we2 : Conn → Bool) (rk2 : Conn → Nat),
        (∀ e ∈ mid, Event.isRegisterOf ci e = false) →
          ¬ (ci ∈ (run (step clients (Event.broadcast message writeErr rank)).1 mid).1) ∧
            writesTo ci (step (run (step clients
              (Event.broadcast message writeErr rank)).1 mid).1
                (Event.broadcast m2 we2 rk2)).2 = []) ∧
      (∀ (c1 : Conn) (we1 we2 : Conn → Bool) (rk1 rk2 : Conn → Nat), we1 c1 = true →
        (run NewBroadcastServer
            [Event.register c1, Event.broadcast [120] we1 rk1]).1.length = 0 ∧
          step (run NewBroadcastServer
            [Event.register c1, Event.broadcast [120] we1 rk1]).1
              (Event.broadcast [121] we2 rk2) = ([], [])) := by
  have hgone : ¬ (ci ∈ (step clients (Event.broadcast message writeErr rank)).1) := by
    rw [mem_step]
    rintro (h | ⟨_, h⟩)
    · exact Bool.noConfusion h
    · simp [Event.removes, hfail] at h
  refine ⟨⟨hgone, ?_⟩, ?_, ?_, ?_, ?_, ?_⟩
  · show Effect.close ci ∈ (broadcastLoop message writeErr (rangeOrder rank clients) clients).2
    rw [close_mem_broadcastLoop, mem_rangeOrder]
    exact ⟨hci, hfail⟩
  · intro cj hcj
    rw [writesTo_step_broadcast, List.count_eq_one_of_mem hnd hcj]
    rfl
  · intro cj hcj hok
    constructor
    · rw [mem_step]
      exact Or.inr ⟨hcj, hok⟩
    · rw [deliveredTo_step_broadcast, List.count_eq_one_of_mem hnd hcj]
      simp [hok]
  · intro rest
    rfl
  · intro mid m2 we2 rk2 hmid
    have h := not_mem_run_of_not_mem _ mid ci hgone hmid
    refine ⟨h, ?_⟩
    rw [writesTo_step_broadcast, List.count_eq_zero_of_not_mem h]
    rfl
  · intro c1 we1 we2 rk1 rk2 h1
    have h2 : (run NewBroadcastServer
        [Event.register c1, Event.broadcast [120] we1 rk1]).1 = [] := by
      simp [run, step, NewBroadcastServer, mapSet, rangeOrder, broadcastLoop, h1, mapDelete]
    rw [h2]
    exact ⟨rfl, rfl⟩

/-- C3, amended, at a concrete registry: members `1, 2, 3`, the write to `2` fails; `1`
is still written and stays; after a `Register(3)` connection `2` is still absent and not
written; and the scenario with `c1 = 1`. -/
theorem c3_write_failure_witness :
    ([1, 2, 3] : List Conn).Nodup ∧ (2 : Conn) ∈ ([1, 2, 3] : List Conn) ∧
      (fun c : Conn => decide (c = 2)) 2 = true ∧
      ¬ ((2 : Conn) ∈ (step [1, 2, 3]
        (Event.broadcast [120] (fun c => decide (c = 2)) (fun _ => 0))).1) ∧
      (∀ cj ∈ ([1, 2, 3] : List Conn), writesTo cj (step [1, 2, 3]
        (Event.broadcast [120] (fun c => decide (c = 2)) (fun _ => 0))).2 = [[120]]) ∧
      ((1 : Conn) ∈ (step [1, 2, 3]
          (Event.broadcast [120] (fun c => decide (c = 2)) (fun _ => 0))).1 ∧
        deliveredTo 1 (step [1, 2, 3]
          (Event.broadcast [120] (fun c => decide (c = 2)) (fun _ => 0))).2 = [[120]]) ∧
      (∀ e ∈ [Event.register 3], Event.isRegisterOf 2 e = false) ∧
      writesTo 2 (step (run (step [1, 2, 3]
        (Event.broadcast [120] (fun c => decide (c = 2)) (fun _ => 0))).1
          [Event.register 3]).1 (Event.broadcast [121] (fun _ => false) (fun _ => 0))).2 =
        [] ∧
      (run NewBroadcastServer
        [Event.register 1, Event.broadcast [120] (fun _ => true) (fun _ => 0)]).1.length =
        0 :=
  have hmid : ∀ e ∈ [Event.register 3], Event.isRegisterOf 2 e = false := by
    intro e he
    rw [List.mem_singleton] at he
    subst he
    rfl
  have h := c3_write_failure [1, 2, 3] [120] (fun c => decide (c = 2)) (fun _ => 0) 2
    (by decide) (by decide) (by decide)
  ⟨by decide, by decide, by decide, h.1.1, h.2.1, h.2.2.1 1 (by decide) (by decide), hmid,
    (h.2.2.2.2.1 [Event.register 3] [121] (fun _ => false) (fun _ => 0) hmid).2,
    (h.2.2.2.2.2 1 (fun _ => true) (fun _ => false) (fun _ => 0) (fun _ => 0) rfl).1⟩

/-! ## C7: replaying `Register` and `Unregister` events -/

theorem run_eq_registersMinusUnregisters (es : List Event) :
    ∀ bag : List Conn, bag.Nodup → (∀ e ∈ es, Event.isMembership e = true) →
      registersOnlyAbsent bag es = true →
        (run bag es).1 = registersMinusUnregisters bag es := by
  induction es with
  | nil => intro bag _ _ _; rfl
  | cons e es ih =>
    intro bag hnd hmem habs
    have hmem1 : ∀ e1 ∈ es, Event.isMembership e1 = true :=
      fun e1 he1 => hmem e1 (List.mem_cons_of_mem e he1)
    cases e with
    | register c =>
      simp only [registersOnlyAbsent, Bool.and_eq_true, decide_eq_true_eq] at habs
      have h1 : (step bag (Event.register c)).1 = bag ++ [c] := by
        show mapSet bag c = bag ++ [c]
        simp [mapSet, habs.1]
      rw [run_cons_fst, h1]
      have hnd1 : (bag ++ [c]).Nodup := by
        rw [← h1]; exact nodup_step bag _ hnd
      exact ih _ hnd1 hmem1 habs.2
    | unregister c =>
      simp only [registersOnlyAbsent] at habs
      have h1 : (step bag (Event.unregister c)).1 = bag.erase c := by
        show mapDelete bag c = bag.erase c
        rw [List.Nodup.erase_eq_filter hnd]
        rfl
      rw [run_cons_fst, h1]
      have hnd1 : (bag.erase c).Nodup := by
        rw [← h1]; exact nodup_step bag _ hnd
      exact ih _ hnd1 hmem1 habs
    | broadcast m we rk =>
      have h := hmem _ (List.mem_cons_self _ _)
      simp [Event.isMembership] at h

/-- C7, as stated, fails: after `Register(1); Register(1); Unregister(1)` the multiset of
`Register`s minus the matching `Unregister`s still holds one occurrence of `1`, but the
`clients` map is empty. -/
theorem c7_counterexample :
    (∀ e ∈ [Event.register 1, Event.register 1, Event.unregister 1],
        Event.isMembership e = true) ∧
      registersMinusUnregisters []
        [Event.register 1, Event.register 1, Event.unregister 1] = [1] ∧
      (run NewBroadcastServer
        [Event.register 1, Event.register 1, Event.unregister 1]).1 = [] ∧
      ((run NewBroadcastServer
        [Event.register 1, Event.register 1, Event.unregister 1]).1 : Multiset Conn) ≠
        (registersMinusUnregisters []
          [Event.register 1, Event.register 1, Event.unregister 1] : Multiset Conn) := by
  refine ⟨?_, by decide, by decide, by decide⟩
  intro e he
  simp only [List.mem_cons, List.mem_singleton, List.not_mem_nil, or_false] at he
  rcases he with h | h | h <;> subst h <;> rfl

/-- C7, amended: for every finite sequence of `Register` and `Unregister` events replayed
by `run` from the empty registry, the registry is a set: `c` is a member afterwards if and
only if a `Register(c)` has been processed and no `Unregister(c)` after the last
`Register(c)` (a repeated `Register` counts once, so one `Unregister` removes the
connection); when no `Register` is for a connection registered at that moment, the
membership is the multiset of `Register`s minus the matching `Unregister`s; and an
`Unregister` of a connection that is not present leaves the registry unchanged, its only
effect being the diagnostic log line. -/
theorem c7_replay (es : List Event) (hmem : ∀ e ∈ es, Event.isMembership e = true) :
    (∀ c : Conn, c ∈ (run NewBroadcastServer es).1 ↔ RegisteredNotUnregistered c es) ∧
      (registersOnlyAbsent [] es = true →
        ((run NewBroadcastServer es).1 : Multiset Conn) =
          (registersMinusUnregisters [] es : Multiset Conn)) ∧
      (∀ (clients : List Conn) (c : Conn), ¬ (c ∈ clients) →
        step clients (Event.unregister c) =
          (clients, [Effect.logDisconnected clients.length])) := by
  refine ⟨?_, ?_, ?_⟩
  · intro c
    rw [mem_run_new_iff]
    constructor
    · rintro ⟨pre, post, h1, h2⟩
      exact ⟨pre, post, h1, fun e he => ⟨(h2 e he).1, (h2 e he).2.1⟩⟩
    · rintro ⟨pre, post, h1, h2⟩
      refine ⟨pre, post, h1, fun e he => ⟨(h2 e he).1, (h2 e he).2, ?_⟩⟩
      have h3 : e ∈ es := by
        rw [h1]
        exact List.mem_append_right pre (List.mem_cons_of_mem _ he)
      have h4 := hmem e h3
      cases e with
      | register k => rfl
      | unregister k => rfl
      | broadcast m we rk => simp [Event.isMembership] at h4
  · intro habs
    have h := run_eq_registersMinusUnregisters es [] List.nodup_nil hmem habs
    show (((run [] es).1 : List Conn) : Multiset Conn) = _
    rw [h]
  · intro clients c hc
    have h1 : mapDelete clients c = clients := by
      unfold mapDelete
      rw [List.filter_eq_self]
      intro a ha
      have : a ≠ c := fun h => hc (h ▸ ha)
      simpa using this
    show (mapDelete clients c, [Effect.logDisconnected (mapDelete clients c).length]) = _
    rw [h1]

/-- C7, amended, at a concrete replay: register `1`, register `2`, unregister `1`,
unregister `1` again. -/
theorem c7_replay_witness :
    (∀ e ∈ [Event.register 1, Event.register 2, Event.unregister 1, Event.unregister 1],
        Event.isMembership e = true) ∧
      (2 ∈ (run NewBroadcastServer
          [Event.register 1, Event.register 2, Event.unregister 1, Event.unregister 1]).1 ↔
        RegisteredNotUnregistered 2
          [Event.register 1, Event.register 2, Event.unregister 1, Event.unregister 1]) ∧
      registersOnlyAbsent []
        [Event.register 1, Event.register 2, Event.unregister 1, Event.unregister 1] =
          true ∧
      ((run NewBroadcastServer
          [Event.register 1, Event.register 2, Event.unregister 1,
            Event.unregister 1]).1 : Multiset Conn) =
        (registersMinusUnregisters []
          [Event.register 1, Event.register 2, Event.unregister 1,
            Event.unregister 1] : Multiset Conn) ∧
      ¬ ((1 : Conn) ∈ ([2] : List Conn)) ∧
      step [2] (Event.unregister 1) = ([2], [Effect.logDisconnected 1]) :=
  have hmem : ∀ e ∈ [Event.register 1, Event.register 2, Event.unregister 1,
      Event.unregister 1], Event.isMembership e = true := by
    intro e he
    simp only [List.mem_cons, List.mem_singleton, List.not_mem_nil, or_false] at he
    rcases he with h | h | h | h <;> subst h <;> rfl
  ⟨hmem, (c7_replay _ hmem).1 2, by decide, (c7_replay _ hmem).2.1 (by decide), by decide,
    (c7_replay _ hmem).2.2 [2] 1 (by decide)⟩

/-! ## C2: one fan-out reaches exactly the registry -/

theorem broadcastLoop_no_err (message : Payload) :
    ∀ (order clients : List Conn),
      (broadcastLoop message (fun _ => false) order clients).1 = clients := by
  intro order
  induction order with
  | nil => intro clients; rfl
  | cons k rest ih =>
    intro clients
    rw [broadcastLoop_cons_ok _ _ _ _ _ rfl]
    exact ih clients

theorem write_mem_broadcastLoop (message : Payload) (writeErr : Conn → Bool)
    (c : Conn) (mt : Nat) (p : Payload) (err : Bool) :
    ∀ (order clients : List Conn),
      Effect.write c mt p err ∈ (broadcastLoop message writeErr order clients).2 →
        c ∈ order ∧ mt = TextMessage ∧ p = message ∧ err = writeErr c := by
  intro order
  induction order with
  | nil => intro clients h; simp [broadcastLoop] at h
  | cons k rest ih =>
    intro clients h
    cases hk : writeErr k
    · rw [broadcastLoop_cons_ok _ _ _ _ _ hk] at h
      simp only [List.mem_cons, Effect.write.injEq] at h
      rcases h with ⟨h1, h2, h3, h4⟩ | h
      · subst h1
        exact ⟨List.mem_cons_self _ _, h2, h3, by rw [hk, h4]⟩
      · have h5 := ih _ h
        exact ⟨List.mem_cons_of_mem _ h5.1, h5.2⟩
    · rw [broadcastLoop_cons_err _ _ _ _ _ hk] at h
      simp only [List.mem_cons, Effect.write.injEq, reduceCtorEq, false_or] at h
      rcases h with ⟨h1, h2, h3, h4⟩ | h
      · subst h1
        exact ⟨List.mem_cons_self _ _, h2, h3, by rw [hk, h4]⟩
      · have h5 := ih _ h
        exact ⟨List.mem_cons_of_mem _ h5.1, h5.2⟩

/-- C2: for every payload `M` and every registry state, processing `Broadcast(M)` writes
`M` exactly once to each member of the registry and to nobody else, every write it issues
being a text message carrying `M` to a member; hence every member whose write does not fail
(the sender included, being a member like any other) receives exactly one copy of `M`, and
nobody else receives anything.  Scenario: register `c1`, `c2`; broadcast `"hello"` reaches
both; unregister `c1`; broadcast `"world"` reaches only `c2`; the registry has size 1. -/
theorem c2_fan_out (clients : List Conn) (message : Payload) (writeErr : Conn → Bool)
    (rank : Conn → Nat) (hnd : clients.Nodup) :
    (∀ c : Conn, writesTo c (step clients (Event.broadcast message writeErr rank)).2 =
        if c ∈ clients then [message] else []) ∧
      (∀ (c : Conn) (mt : Nat) (p : Payload) (err : Bool),
        Effect.write c mt p err ∈ (step clients (Event.broadcast message writeErr rank)).2 →
          c ∈ clients ∧ mt = TextMessage ∧ p = message ∧ err = writeErr c) ∧
      (∀ c : Conn, deliveredTo c (step clients (Event.broadcast message writeErr rank)).2 =
        if c ∈ clients ∧ writeErr c = false then [message] else []) ∧
      (∀ (c1 c2 : Conn) (rk1 rk2 : Conn → Nat), c1 ≠ c2 →
        deliveredTo c1 (run NewBroadcastServer
            [Event.register c1, Event.register c2,
              Event.broadcast [104, 101, 108, 108, 111] (fun _ => false) rk1,
              Event.unregister c1,
              Event.broadcast [119, 111, 114, 108, 100] (fun _ => false) rk2]).2 =
          [[104, 101, 108, 108, 111]] ∧
        deliveredTo c2 (run NewBroadcastServer
            [Event.register c1, Event.register c2,
              Event.broadcast [104, 101, 108, 108, 111] (fun _ => false) rk1,
              Event.unregister c1,
              Event.broadcast [119, 111, 114, 108, 100] (fun _ => false) rk2]).2 =
          [[104, 101, 108, 108, 111], [119, 111, 114, 108, 100]] ∧
        (∀ c : Conn, c ≠ c1 → c ≠ c2 →
          writesTo c (run NewBroadcastServer
            [Event.register c1, Event.register c2,
              Event.broadcast [104, 101, 108, 108, 111] (fun _ => false) rk1,
              Event.unregister c1,
              Event.broadcast [119, 111, 114, 108, 100] (fun _ => false) rk2]).2 = []) ∧
        (run NewBroadcastServer
            [Event.register c1, Event.register c2,
              Event.broadcast [104, 101, 108, 108, 111] (fun _ => false) rk1,
              Event.unregister c1,
              Event.broadcast [119, 111, 114, 108, 100] (fun _ => false) rk2]).1.length =
          1) := by
  refine ⟨?_, ?_, ?_, ?_⟩
  · intro c
    rw [writesTo_step_broadcast, count_of_nodup clients c hnd]
    by_cases hc : c ∈ clients <;> simp [hc]
  · intro c mt p err h
    have h1 := write_mem_broadcastLoop message writeErr c mt p err _ _ h
    exact ⟨(mem_rangeOrder rank clients c).1 h1.1, h1.2⟩
  · intro c
    rw [deliveredTo_step_broadcast, count_of_nodup clients c hnd]
    by_cases hc : c ∈ clients <;> cases hw : writeErr c <;> simp [hc]
  · intro c1 c2 rk1 rk2 hne
    have hne2 : c2 ≠ c1 := fun h => hne h.symm
    have h1 : step NewBroadcastServer (Event.register c1) = ([c1], [Effect.logConnected 1]) := by
      simp [step, mapSet, NewBroadcastServer]
    have h2 : step [c1] (Event.register c2) = ([c1, c2], [Effect.logConnected 2]) := by
      simp [step, mapSet, hne2]
    have h3 : (step [c1, c2] (Event.broadcast [104, 101, 108, 108, 111]
        (fun _ => false) rk1)).1 = [c1, c2] := broadcastLoop_no_err _ _ _
    have h4 : step [c1, c2] (Event.unregister c1) = ([c2], [Effect.logDisconnected 1]) := by
      simp [step, mapDelete, hne2]
    have h5 : (step [c2] (Event.broadcast [119, 111, 114, 108, 100]
        (fun _ => false) rk2)).1 = [c2] := broadcastLoop_no_err _ _ _
    have hrun : run NewBroadcastServer
        [Event.register c1, Event.register c2,
          Event.broadcast [104, 101, 108, 108, 111] (fun _ => false) rk1,
          Event.unregister c1,
          Event.broadcast [119, 111, 114, 108, 100] (fun _ => false) rk2] =
        ([c2], [Effect.logConnected 1] ++ ([Effect.logConnected 2] ++
          ((step [c1, c2] (Event.broadcast [104, 101, 108, 108, 111]
            (fun _ => false) rk1)).2 ++ ([Effect.logDisconnected 1] ++
          ((step [c2] (Event.broadcast [119, 111, 114, 108, 100]
            (fun _ => false) rk2)).2 ++ []))))) := by
      simp only [run, h1, h2, h3, h4, h5]
    rw [hrun]
    refine ⟨?_, ?_, ?_, rfl⟩
    · simp [deliveredTo_append, deliveredTo_step_broadcast, deliveredTo, hne, hne2]
    · simp [deliveredTo_append, deliveredTo_step_broadcast, deliveredTo, hne, hne2]
    · intro c hc1 hc2
      have hc1s : c1 ≠ c := fun h => hc1 h.symm
      have hc2s : c2 ≠ c := fun h => hc2 h.symm
      have hcnt : List.count c [c1, c2] = 0 :=
        List.count_eq_zero_of_not_mem (by simp [hc1, hc2])
      simp [writesTo_append, writesTo_step_broadcast, writesTo, hc2s, hcnt]

/-- C2 at a concrete registry: members `1, 2, 3`, the write to `2` fails; and the
scenario with `c1 = 1`, `c2 = 2`. -/
theorem c2_fan_out_witness :
    ([1, 2, 3] : List Conn).Nodup ∧
      (∀ c : Conn, writesTo c (step [1, 2, 3]
        (Event.broadcast [104, 105] (fun c => decide (c = 2)) (fun c => 10 - c))).2 =
          if c ∈ ([1, 2, 3] : List Conn) then [[104, 105]] else []) ∧
      (∀ c : Conn, deliveredTo c (step [1, 2, 3]
        (Event.broadcast [104, 105] (fun c => decide (c = 2)) (fun c => 10 - c))).2 =
          if c ∈ ([1, 2, 3] : List Conn) ∧ (fun c => decide (c = 2)) c = false
            then [[104, 105]] else []) ∧
      (1 : Conn) ≠ 2 ∧
      deliveredTo 2 (run NewBroadcastServer
          [Event.register 1, Event.register 2,
            Event.broadcast [104, 101, 108, 108, 111] (fun _ => false) (fun _ => 0),
            Event.unregister 1,
            Event.broadcast [119, 111, 114, 108, 100] (fun _ => false) (fun _ => 0)]).2 =
        [[104, 101, 108, 108, 111], [119, 111, 114, 108, 100]] ∧
      (run NewBroadcastServer
          [Event.register 1, Event.register 2,
            Event.broadcast [104, 101, 108, 108, 111] (fun _ => false) (fun _ => 0),
            Event.unregister 1,
            Event.broadcast [119, 111, 114, 108, 100] (fun _ => false) (fun _ => 0)]).1.length =
        1 :=
  have h := c2_fan_out [1, 2, 3] [104, 105] (fun c => decide (c = 2)) (fun c => 10 - c)
    (by decide)
  ⟨by decide, h.1, h.2.2.1, by decide,
    (h.2.2.2 1 2 (fun _ => 0) (fun _ => 0) (by decide)).2.1,
    (h.2.2.2 1 2 (fun _ => 0) (fun _ => 0) (by decide)).2.2.2⟩

/-! ## C5: broadcasts are not reordered -/

theorem deliveredTo_sublist_writesTo (c : Conn) (xs : List Effect) :
    (deliveredTo c xs).Sublist (writesTo c xs) := by
  induction xs with
  | nil => exact List.Sublist.slnil
  | cons x xs ih =>
    cases x with
    | write c1 mt m err =>
      by_cases h : c1 = c <;> cases err <;> simp [deliveredTo, writesTo, h, ih]
    | _ => simpa [deliveredTo, writesTo] using ih

theorem writesTo_run_sublist (es : List Event) (c : Conn) :
    ∀ clients : List Conn, clients.Nodup →
      (writesTo c (run clients es).2).Sublist (broadcastPayloads es) := by
  induction es with
  | nil => intro clients _; exact List.Sublist.slnil
  | cons e es ih =>
    intro clients hnd
    have ih1 := ih (step clients e).1 (nodup_step clients e hnd)
    rw [run_cons_snd, writesTo_append]
    cases e with
    | register k => simpa [step, writesTo, broadcastPayloads] using ih1
    | unregister k => simpa [step, writesTo, broadcastPayloads] using ih1
    | broadcast m we rk =>
      rw [writesTo_step_broadcast, count_of_nodup clients c hnd]
      by_cases hc : c ∈ clients
      · simpa [hc, broadcastPayloads, List.replicate_succ] using ih1
      · simpa [hc, broadcastPayloads] using List.Sublist.cons m ih1

/-- C5: for every event sequence processed by `run` from the empty registry and every
connection, the sequence of payloads written to that connection is a subsequence of the
broadcast payloads in the order `run` received them, and so is the sequence of payloads the
connection receives: two broadcasts `M1` then `M2` are never written, nor received, in
the order `M2`, `M1`. -/
theorem c5_no_reordering (es : List Event) (c : Conn) :
    (writesTo c (run NewBroadcastServer es).2).Sublist (broadcastPayloads es) ∧
      (deliveredTo c (run NewBroadcastServer es).2).Sublist (broadcastPayloads es) := by
  have h := writesTo_run_sublist es c NewBroadcastServer List.nodup_nil
  exact ⟨h, (deliveredTo_sublist_writesTo c _).trans h⟩

/-! ## C4: the read pump -/

theorem readLoop_until_error (c : Conn) (unexpectedClose : Bool) (later : List ReadResult) :
    ∀ msgs : List (Nat × Payload),
      readLoop c (successfulReads msgs ++ ReadResult.error unexpectedClose :: later) =
        ((textPayloads msgs).map Effect.sendBroadcast ++
          (if unexpectedClose then [Effect.logReadError c] else []), true) := by
  intro msgs
  induction msgs with
  | nil => rfl
  | cons p msgs ih =>
    obtain ⟨mt, m⟩ := p
    have h : readLoop c (successfulReads ((mt, m) :: msgs) ++
        ReadResult.error unexpectedClose :: later) =
        (if mt = TextMessage then Effect.sendBroadcast m ::
            (readLoop c (successfulReads msgs ++
              ReadResult.error unexpectedClose :: later)).1
          else (readLoop c (successfulReads msgs ++
              ReadResult.error unexpectedClose :: later)).1,
          (readLoop c (successfulReads msgs ++
              ReadResult.error unexpectedClose :: later)).2) := rfl
    rw [h, ih]
    by_cases hmt : mt = TextMessage <;> simp [textPayloads, hmt]

theorem readLoop_no_error (c : Conn) :
    ∀ msgs : List (Nat × Payload),
      readLoop c (successfulReads msgs) =
        ((textPayloads msgs).map Effect.sendBroadcast, false) := by
  intro msgs
  induction msgs with
  | nil => rfl
  | cons p msgs ih =>
    obtain ⟨mt, m⟩ := p
    have h : readLoop c (successfulReads ((mt, m) :: msgs)) =
        (if mt = TextMessage then Effect.sendBroadcast m ::
            (readLoop c (successfulReads msgs)).1
          else (readLoop c (successfulReads msgs)).1,
          (readLoop c (successfulReads msgs)).2) := rfl
    rw [h, ih]
    by_cases hmt : mt = TextMessage <;> simp [textPayloads, hmt]

theorem channelSends_append (xs ys : List Effect) :
    channelSends (xs ++ ys) = channelSends xs ++ channelSends ys := by
  induction xs with
  | nil => rfl
  | cons x xs ih => cases x <;> simp [channelSends, ih]

theorem channelSends_sendBroadcast (ms : List Payload) :
    channelSends (ms.map Effect.sendBroadcast) = ms.map Effect.sendBroadcast := by
  induction ms with
  | nil => rfl
  | cons m ms ih => simp [channelSends, ih]

/-- C4: run on any finite sequence of read results in which the first read error comes
after the successful reads `msgs`, `handleWebSocket(c)` terminates, and what it does is
exactly: send `Register(c)`; send one `Broadcast(payload)` for each successfully read text
message, in read order, with the payload it read; log the error when it is an unexpected
close; send `Unregister(c)`; close `c`.  So the events it emits are `Register(c)`, the
broadcasts, and one `Unregister(c)`, the close comes last, and no effect is a write.  As
long as no read has failed it has emitted `Register(c)` and the broadcasts only, and has
not terminated. -/
theorem c4_read_pump (c : Conn) (msgs : List (Nat × Payload)) (unexpectedClose : Bool)
    (later : List ReadResult) :
    handleWebSocket c (successfulReads msgs ++ ReadResult.error unexpectedClose :: later) =
        (Effect.sendRegister c :: ((textPayloads msgs).map Effect.sendBroadcast ++
          ((if unexpectedClose then [Effect.logReadError c] else []) ++
            [Effect.sendUnregister c, Effect.close c])), true) ∧
      channelSends (handleWebSocket c
          (successfulReads msgs ++ ReadResult.error unexpectedClose :: later)).1 =
        Effect.sendRegister c :: ((textPayloads msgs).map Effect.sendBroadcast ++
          [Effect.sendUnregister c]) ∧
      (∀ (c1 : Conn) (mt : Nat) (p : Payload) (err : Bool),
        ¬ (Effect.write c1 mt p err ∈ (handleWebSocket c
          (successfulReads msgs ++ ReadResult.error unexpectedClose :: later)).1)) ∧
      handleWebSocket c (successfulReads msgs) =
        (Effect.sendRegister c :: (textPayloads msgs).map Effect.sendBroadcast, false) := by
  have h1 : handleWebSocket c
      (successfulReads msgs ++ ReadResult.error unexpectedClose :: later) =
        (Effect.sendRegister c :: ((textPayloads msgs).map Effect.sendBroadcast ++
          ((if unexpectedClose then [Effect.logReadError c] else []) ++
            [Effect.sendUnregister c, Effect.close c])), true) := by
    unfold handleWebSocket
    rw [readLoop_until_error]
    simp
  refine ⟨h1, ?_, ?_, ?_⟩
  · rw [h1]
    cases unexpectedClose <;>
      simp [channelSends, channelSends_append, channelSends_sendBroadcast]
  · intro c1 mt p err
    rw [h1]
    cases unexpectedClose <;> simp
  · unfold handleWebSocket
    rw [readLoop_no_error]
    simp

/-! ## C10: command dispatch -/

/-- C10: for every argument list, when the subcommand is missing, or is neither `start`
nor `connect`, `main` prints a usage message and exits with status 1, starting neither
server nor client; `start` without flags (alone, or followed by an argument that is not a
flag) starts the server on port 8080; `connect` without flags connects to `localhost` on
port 8080; and a given `-port` or `-host` value replaces the corresponding default and
only that one. -/
theorem c10_dispatch (parseInt : String → Option Int) (prog : String) :
    (∀ args : List String, args.length < 2 →
      main parseInt args =
          [Action.println "Usage: broadcast-server [start|connect]", Action.exit 1] ∧
        ∀ a ∈ main parseInt args, Action.starts a = false) ∧
      (∀ (sub : String) (rest : List String), sub ≠ "start" → sub ≠ "connect" →
        main parseInt (prog :: sub :: rest) =
            [Action.println "Expected 'start' or 'connect' subcommands", Action.exit 1] ∧
          ∀ a ∈ main parseInt (prog :: sub :: rest), Action.starts a = false) ∧
      main parseInt [prog, "start"] =
        [Action.logStarting 8080, Action.startServer 8080] ∧
      (∀ (arg : String) (rest : List String), classify arg.toList = ArgKind.nonFlag →
        main parseInt (prog :: "start" :: arg :: rest) =
          [Action.logStarting 8080, Action.startServer 8080]) ∧
      main parseInt [prog, "connect"] =
        [Action.logConnecting "localhost" 8080, Action.startClient "localhost" 8080] ∧
      (∀ (v : String) (port : Int), parseInt v = some port →
        main parseInt [prog, "start", "-port", v] =
            [Action.logStarting port, Action.startServer port] ∧
          main parseInt [prog, "connect", "-port", v] =
            [Action.logConnecting "localhost" port, Action.startClient "localhost" port] ∧
          ∀ host : String,
            main parseInt [prog, "connect", "-host", host, "-port", v] =
              [Action.logConnecting host port, Action.startClient host port]) ∧
      (∀ host : String,
        main parseInt [prog, "connect", "-host", host] =
          [Action.logConnecting host 8080, Action.startClient host 8080]) := by
  refine ⟨?_, ?_, ?_, ?_, ?_, ?_, ?_⟩
  · intro args hlen
    have h : main parseInt args =
        [Action.println "Usage: broadcast-server [start|connect]", Action.exit 1] := by
      match args, hlen with
      | [], _ => rfl
      | [_], _ => rfl
      | _ :: _ :: _, h =>
        simp only [List.length_cons] at h
        omega
    rw [h]
    exact ⟨rfl, by decide⟩
  · intro sub rest h1 h2
    have h : main parseInt (prog :: sub :: rest) =
        [Action.println "Expected 'start' or 'connect' subcommands", Action.exit 1] := by
      simp [main, h1, h2]
    rw [h]
    exact ⟨rfl, by decide⟩
  · simp [main, parse, startCmd, intFlag, lookupFlag, defaultPort]
  · intro arg rest harg
    have harg1 : classify arg.data = ArgKind.nonFlag := harg
    simp [main, parse, harg1, startCmd, intFlag, lookupFlag, defaultPort]
  · simp [main, parse, connectCmd, intFlag, stringFlag, lookupFlag, defaultPort]
  · intro v port hv
    refine ⟨?_, ?_, ?_⟩
    · simp [main, parse, classify, flagName, splitAtEq, lookupFlag, startCmd, setFlag, hv,
        intFlag]
    · simp [main, parse, classify, flagName, splitAtEq, lookupFlag, connectCmd, setFlag, hv,
        intFlag, stringFlag]
    · intro host
      simp [main, parse, classify, flagName, splitAtEq, lookupFlag, connectCmd, setFlag, hv,
        intFlag, stringFlag]
  · intro host
    simp [main, parse, classify, flagName, splitAtEq, lookupFlag, connectCmd, setFlag,
      intFlag, stringFlag, defaultPort]

/-- C10 with decimal port numbers: no subcommand, an unknown subcommand, `start` followed
by a plain argument, and `start -port 9000`. -/
theorem c10_dispatch_witness :
    (["broadcast-server"] : List String).length < 2 ∧
      main (fun s => decimal 0 s.toList) ["broadcast-server"] =
        [Action.println "Usage: broadcast-server [start|connect]", Action.exit 1] ∧
      "stop" ≠ "start" ∧ "stop" ≠ "connect" ∧
      main (fun s => decimal 0 s.toList) ["broadcast-server", "stop"] =
        [Action.println "Expected 'start' or 'connect' subcommands", Action.exit 1] ∧
      classify "now".toList = ArgKind.nonFlag ∧
      main (fun s => decimal 0 s.toList) ["broadcast-server", "start", "now"] =
        [Action.logStarting 8080, Action.startServer 8080] ∧
      (fun s => decimal 0 s.toList) "9000" = some 9000 ∧
      main (fun s => decimal 0 s.toList) ["broadcast-server", "start", "-port", "9000"] =
        [Action.logStarting 9000, Action.startServer 9000] :=
  ⟨by decide,
    ((c10_dispatch (fun s => decimal 0 s.toList) "broadcast-server").1
      ["broadcast-server"] (by decide)).1,
    by decide, by decide,
    ((c10_dispatch (fun s => decimal 0 s.toList) "broadcast-server").2.1
      "stop" [] (by decide) (by decide)).1,
    by decide,
    (c10_dispatch (fun s => decimal 0 s.toList) "broadcast-server").2.2.2.1
      "now" [] (by decide),
    by decide,
    ((c10_dispatch (fun s => decimal 0 s.toList) "broadcast-server").2.2.2.2.2.1
      "9000" 9000 (by decide)).1⟩

end BroadcastServer
